import Mathlib

/-!
Verification development for the tilegrams TopoJSON exporter
(`src/source/file/Exporter.js`).

The file embeds the two exporter entry points as Lean functions:

* `fromGeoJSON` — the topology delta encoder (source lines 140–184),
  which turns GeoJSON-like features into a minimal topology whose arcs
  are delta-encoded point sequences;
* `toTopoJson` — the primary exporter (source lines 23–99), modelled up
  to the feature collection that is handed to the external `topology()`
  builder (the builder itself, quantization and metadata attachment are
  external collaborators, out of scope per the specification).

JavaScript values that flow through the encoder are heterogeneous
(numbers and nested arrays), so they are embedded as the inductive
`JVal`.  The primary exporter's state aggregation uses a plain
JavaScript object, embedded as an association list together with the
ECMAScript own-property-key enumeration order (array-index keys first,
in ascending numeric order, then the remaining string keys in insertion
order).
-/

namespace Tilegrams

/-! ## JavaScript values for the delta encoder -/

/-- A JavaScript value as seen by the delta encoder: a number, an array,
or `undefined`.  Coordinates in scope are integral, so numbers are
modelled as `Int`.  `undefined` also absorbs the non-numeric results of
JavaScript arithmetic (`NaN`); no verified statement depends on that
branch. -/
inductive JVal where
  | num (v : Int)
  | arr (elems : List JVal)
  | undefined

/-- Encode an integer coordinate pair as the JavaScript array
`[x, y]`. -/
def jpt (p : Int × Int) : JVal :=
  .arr [.num p.1, .num p.2]

/-- JavaScript indexing `v[i]`: element of an array, `undefined`
otherwise (and beyond the end). -/
def jidx (v : JVal) (i : Nat) : JVal :=
  match v with
  | .arr xs => xs.getD i .undefined
  | _ => .undefined

/-- JavaScript subtraction as used by the encoder: on two numbers it is
integer subtraction; any other operand combination is collapsed to
`undefined` (JavaScript would coerce and typically produce `NaN`; the
encoder only subtracts point components, which are numbers, in every
verified statement). -/
def jsub (a b : JVal) : JVal :=
  match a, b with
  | .num x, .num y => .num (x - y)
  | _, _ => .undefined

/-- Iterating over a JavaScript value with `forEach`: the elements of an
array.  (`forEach` on a non-array throws in JavaScript; the encoder only
iterates over arrays in every verified statement.) -/
def asArr (v : JVal) : List JVal :=
  match v with
  | .arr xs => xs
  | _ => []

/-! ## The delta encoder (`fromGeoJSON`, source lines 140–184) -/

/-- The `pointIndex > 0` branch of the encoder loop: for each remaining
point push `[points[i][0] - points[i-1][0], points[i][1] - points[i-1][1]]`,
where `prev` is the immediately preceding point. -/
def deltaPoints : JVal → List JVal → List JVal
  | _, [] => []
  | prev, p :: rest =>
      .arr [jsub (jidx p 0) (jidx prev 0), jsub (jidx p 1) (jidx prev 1)] ::
        deltaPoints p rest

/-- Build one arc from a point sequence (source lines 157–167): point 0
is pushed verbatim, every later point is the component-wise difference
with its immediate predecessor. -/
def encodeArc : List JVal → List JVal
  | [] => []
  | p :: rest => p :: deltaPoints p rest

/-- A GeoJSON-like input feature, as read by `fromGeoJSON`: the code
accesses `feature.id` and `feature.geometry.coordinates` only.
`declaredType` records the input's `feature.geometry.type`, which the
source never reads. -/
structure GFeature where
  id : String
  declaredType : String
  coordinates : List JVal

/-- An output geometry of the delta encoder: the `type` string of the
source object literal is carried by the constructor
(`polygon` ↦ `"Polygon"`, `multiPolygon` ↦ `"MultiPolygon"`), together
with `id` and the `arcs` index nesting of the corresponding branch. -/
inductive TopoGeom where
  | polygon (id : String) (arcs : List (List Nat))
  | multiPolygon (id : String) (arcs : List (List (List Nat)))

/-- Whether an output geometry is the `"MultiPolygon"` variant. -/
def TopoGeom.isMulti : TopoGeom → Bool
  | .polygon _ _ => false
  | .multiPolygon _ _ => true

/-- The topology produced by `fromGeoJSON`: one named geometry
collection plus the shared arc list, with the fixed identity transform
(`scale: [1.0, 1.0]`, `translate: [0.0, 0.0]`). -/
structure Topology where
  objectId : String
  geometries : List TopoGeom
  arcs : List (List JVal)
  scale : Int × Int
  translate : Int × Int

/-- The point sequence encoded for one path (source line 156):
`hasMultiplePaths ? path[0] : path`. -/
def selectPoints (hasMultiplePaths : Bool) (path : JVal) : List JVal :=
  asArr (if hasMultiplePaths then jidx path 0 else path)

/-- All arcs contributed by one feature, in path order. -/
def featureArcs (f : GFeature) : List (List JVal) :=
  f.coordinates.map fun path =>
    encodeArc (selectPoints (decide (1 < f.coordinates.length)) path)

/-- Encode one feature against the shared arc accumulator: append its
arcs (recording their indices `acc.length, acc.length+1, …`) and emit
the geometry of source lines 171–177. -/
def encodeFeature (acc : List (List JVal)) (f : GFeature) :
    List (List JVal) × TopoGeom :=
  let newArcs := featureArcs f
  let indices := List.range' acc.length newArcs.length
  (acc ++ newArcs,
    if 1 < f.coordinates.length then
      TopoGeom.multiPolygon f.id (indices.map fun i => [[i]])
    else
      TopoGeom.polygon f.id [indices])

/-- One step of the `geometries` map (source lines 152–178), threading
the shared arc accumulator on the side. -/
def encodeStep (p : List (List JVal) × List TopoGeom) (f : GFeature) :
    List (List JVal) × List TopoGeom :=
  let q := encodeFeature p.1 f
  (q.1, p.2 ++ [q.2])

/-- The delta encoder `fromGeoJSON(geoJSON, objectId)` (source lines
140–184).  `objectId` defaults to `"states"` when absent or falsy (the
empty string). -/
def fromGeoJSON (geoJSON : List GFeature) (objectId : Option String) :
    Topology :=
  let oid := match objectId with
    | none => "states"
    | some s => if s = "" then "states" else s
  let res := geoJSON.foldl encodeStep ([], [])
  ⟨oid, res.2, res.1, (1, 1), (0, 0)⟩

/-! ## The decoder, for the round-trip guarantee -/

/-- JavaScript addition of two encoded points, used only by the
decoder. -/
def jadd (a b : JVal) : JVal :=
  match a, b with
  | .arr [.num x, .num y], .arr [.num dx, .num dy] =>
      .arr [.num (x + dx), .num (y + dy)]
  | _, _ => .undefined

/-- Running cumulative sum of displacements onto the previous absolute
point. -/
def sumPts : JVal → List JVal → List JVal
  | _, [] => []
  | prev, d :: rest =>
      let p := jadd prev d
      p :: sumPts p rest

/-- Modelled from the spec: the repository contains no decoder; §4.3 of
the specification defines decoding an arc as prefix-summing its
displacements, left to right, onto its absolute first point. -/
def decodeArc : List JVal → List JVal
  | [] => []
  | a :: ds => a :: sumPts a ds

/-- Number of arcs contributed by the features before index `k`, which
is the arc index at which feature `k`'s arcs start. -/
def startOf (fs : List GFeature) (k : Nat) : Nat :=
  ((fs.take k).map fun f => f.coordinates.length).sum

/-- The geometry emitted for a feature whose arcs start at index `n`
(source lines 171–177), in closed form. -/
def geomOf (n : Nat) (f : GFeature) : TopoGeom :=
  if 1 < f.coordinates.length then
    TopoGeom.multiPolygon f.id
      ((List.range' n f.coordinates.length).map fun i => [[i]])
  else
    TopoGeom.polygon f.id [List.range' n f.coordinates.length]

/-- The geometries of a feature list whose first arc lands at index
`n`, in closed form. -/
def geomsFrom : Nat → List GFeature → List TopoGeom
  | _, [] => []
  | n, f :: fs => geomOf n f :: geomsFrom (n + f.coordinates.length) fs

/-! ## The primary exporter (`toTopoJson`, source lines 23–99)

The exporter is modelled up to the GeoJSON feature collection that the
source hands to the external `topology()` builder; the builder,
quantization and the metadata attached afterwards are external
collaborators.  The two external lookups it consumes
(`gridGeometry` and `geographyResource.getGeoCodeHash(geography)`)
become explicit parameters. -/

/-- A grid position `{x, y}`. -/
structure Pos where
  x : Int
  y : Int
deriving DecidableEq

/-- A hexagon tile `{id, position}`. -/
structure Tile where
  id : String
  position : Pos
deriving DecidableEq

/-- A pixel point produced by the grid-geometry collaborator. -/
abbrev Point := Int × Int

/-- The external grid-geometry collaborator.  `tileCenterPoint` receives
a flipped `y` value that is non-finite (`none`, standing for the
`NaN` produced by JavaScript arithmetic on `-Infinity`) exactly when the
tile set is empty. -/
structure GridGeometry where
  tileCenterPoint : Int → Option Int → Point
  getPointsAround : Point → Bool → List Point

/-- `maxTileY`: the maximum tile `y`, starting from `-Infinity` (source
lines 24–27).  `none` models `-Infinity`, i.e. an empty tile list. -/
def maxTileY (tiles : List Tile) : Option Int :=
  tiles.foldl
    (fun m t => some (match m with
      | none => t.position.y
      | some v => max v t.position.y))
    none

/-- The flipped, parity-corrected row
`(maxTileY - tile.position.y) - (maxTileY % 2)` (source line 52).
JavaScript `%` is the truncated remainder (`Int.tmod`); arithmetic on
`-Infinity` yields a non-finite value, propagated as `none`. -/
def flippedY (mY : Option Int) (y : Int) : Option Int :=
  mY.map fun v => (v - y) - Int.tmod v 2

/-- The closed hexagon ring for one tile (source lines 50–56): the
collaborator's vertices around the flipped center, with a copy of the
first vertex appended to close the loop. -/
def tileHexagon (g : GridGeometry) (mY : Option Int) (t : Tile) :
    List Point :=
  let center := g.tileCenterPoint t.position.x (flippedY mY t.position.y)
  let hexagonPoints := g.getPointsAround center true
  hexagonPoints ++ [hexagonPoints.headD (0, 0)]

/-! ### The tile aggregation object

`tilesByState` is a plain JavaScript object; it is embedded as an
association list in property-creation order.  A value of `none` models
JavaScript `null`, an absent key models `undefined`. -/

/-- The aggregation object: keys in property-creation order. -/
abbrev StateMap := List (String × Option (List Tile))

/-- Property read `o[k]`: `some v` when the key is present with value
`v`, `none` when absent (`undefined`). -/
def getVal : StateMap → String → Option (Option (List Tile))
  | [], _ => none
  | e :: es, k => if e.1 = k then some e.2 else getVal es k

/-- Property write `o[k] = v`: replace the value of an existing key in
place, otherwise append the key. -/
def setVal : StateMap → String → Option (List Tile) → StateMap
  | [], k, v => [(k, v)]
  | e :: es, k, v => if e.1 = k then (k, v) :: es else e :: setVal es k v

/-- One step of the tile loop (source lines 31–36): create an empty
array when the current value is falsy (absent or `null`), then push the
tile. -/
def addTile (o : StateMap) (t : Tile) : StateMap :=
  match getVal o t.id with
  | some (some l) => setVal o t.id (some (l ++ [t]))
  | _ => setVal o t.id (some [t])

/-- One step of the dataset loop (source lines 37–40): when the current
value is falsy (absent or `null`), set it to `null`. -/
def addDataset (o : StateMap) (d : String × Int) : StateMap :=
  match getVal o d.1 with
  | some (some _) => o
  | _ => setVal o d.1 none

/-- The aggregation `tilesByState` (source lines 30–40). -/
def tilesByState (tiles : List Tile) (dataset : List (String × Int)) :
    StateMap :=
  dataset.foldl addDataset (tiles.foldl addTile [])

/-- The keys of the object in property-creation order. -/
def keysOf (o : StateMap) : List String :=
  o.map fun e => e.1

/-- Whether a character is a decimal digit (checked on the code
point). -/
def isDigitChar (c : Char) : Bool :=
  48 ≤ c.toNat && c.toNat ≤ 57

/-- The natural number denoted by a list of decimal digits. -/
def natOfDigits (cs : List Char) : Nat :=
  cs.foldl (fun n c => n * 10 + (c.toNat - 48)) 0

/-- The numeric value of a key, for ordering array-index keys. -/
def keyNum (s : String) : Nat :=
  natOfDigits s.data

/-- Whether a string is an ECMAScript array index: the canonical decimal
form (digits only, no leading zero except `"0"` itself) of an integer
`n` with `0 ≤ n < 2^32 - 1`. -/
def isArrayIndex (s : String) : Bool :=
  let cs := s.data
  !cs.isEmpty && cs.all isDigitChar &&
    (cs = ['0'] || cs.headD '0' ≠ '0') &&
    natOfDigits cs < 4294967295

/-- Insert a string into a list sorted by numeric value (array-index
keys only; distinct canonical representations have distinct values). -/
def insertByNum (s : String) : List String → List String
  | [] => [s]
  | t :: ts =>
      if keyNum s ≤ keyNum t then s :: t :: ts
      else t :: insertByNum s ts

/-- Sort a list of array-index keys in ascending numeric order. -/
def sortByNum (l : List String) : List String :=
  l.foldr insertByNum []

/-- `Object.keys(o)`: per ECMAScript own-property-key enumeration,
array-index keys first in ascending numeric order, then the remaining
string keys in property-creation order. -/
def jsKeys (o : StateMap) : List String :=
  sortByNum ((keysOf o).filter fun k => isArrayIndex k) ++
    (keysOf o).filter fun k => !isArrayIndex k

/-! ### Features and the exporter -/

/-- A region geometry of the primary exporter (source lines 58–68). -/
inductive FGeometry where
  | polygon (coordinates : List (List Point))
  | multiPolygon (coordinates : List (List (List Point)))
deriving DecidableEq

/-- An output feature (source lines 70–78): `geometry` is `none` for a
region with no tiles; `name` and `tilegramValue` are the two
properties. -/
structure Feature where
  id : String
  geometry : Option FGeometry
  name : String
  tilegramValue : Int
deriving DecidableEq

/-- A failed lookup: the region id is absent from the geography's name
table, or from the dataset (source lines 75–76, where JavaScript throws
on the `undefined` access). -/
inductive LookupError where
  | nameNotFound (id : String)
  | metricNotFound (id : String)
deriving DecidableEq

/-- The geometry of one region (source lines 44–68): `null` for a
region without tiles; otherwise one closed hexagon ring per tile,
wrapped as a `Polygon` when there is exactly one ring and as a
`MultiPolygon` (one part per ring) otherwise. -/
def buildGeometry (g : GridGeometry) (mY : Option Int) :
    Option (List Tile) → Option FGeometry
  | none => none
  | some stateTiles =>
      let tilesCoordinates := stateTiles.map (tileHexagon g mY)
      if tilesCoordinates.length ≠ 1 then
        some (.multiPolygon (tilesCoordinates.map fun t => [t]))
      else
        some (.polygon tilesCoordinates)

/-- Build the feature of one region (source lines 42–79): geometry,
then the name lookup, then the dataset scan for the metric value, in
the evaluation order of the source's object literal. -/
def buildFeature (g : GridGeometry) (geoHash : String → Option String)
    (dataset : List (String × Int)) (mY : Option Int) (stateId : String)
    (stateTiles : Option (List Tile)) : Except LookupError Feature :=
  let geometry := buildGeometry g mY stateTiles
  match geoHash stateId with
  | none => .error (.nameNotFound stateId)
  | some nm =>
      match dataset.find? (fun d => d.1 = stateId) with
      | none => .error (.metricNotFound stateId)
      | some d => .ok ⟨stateId, geometry, nm, d.2⟩

/-- The primary exporter `toTopoJson` (source lines 23–99), modelled up
to the feature collection handed to the external `topology()` builder.
A thrown lookup failure aborts the whole map, so no partial collection
is produced. -/
def toTopoJson (g : GridGeometry) (geoHash : String → Option String)
    (tiles : List Tile) (dataset : List (String × Int)) :
    Except LookupError (List Feature) :=
  (jsKeys (tilesByState tiles dataset)).mapM fun stateId =>
    buildFeature g geoHash dataset (maxTileY tiles) stateId
      ((getVal (tilesByState tiles dataset) stateId).getD none)

/-- Keys inserted if absent: the effect of one property creation on the
key list. -/
def insertKey (ks : List String) (k : String) : List String :=
  if k ∈ ks then ks else ks ++ [k]

/-- First-occurrence order of a list of keys: the property-creation
order an object acquires when the keys are written in sequence. -/
def firstKeys (l : List String) : List String :=
  l.foldl insertKey []

/-- A concrete grid-geometry collaborator used to instantiate the
universally quantified theorems: the tile center is the grid column and
the hexagon collapses to that single vertex. -/
def gridW : GridGeometry :=
  ⟨fun x _ => (x, 0), fun c _ => [c]⟩

/-- A second concrete grid-geometry collaborator, distinct from
`gridW`, used to exhibit independence from the collaborator. -/
def gridW2 : GridGeometry :=
  ⟨fun x _ => (x + 1, 1), fun c _ => [c, c]⟩

/-! ## Lemmas about the delta encoder -/

theorem deltaPoints_length (prev : JVal) (l : List JVal) :
    (deltaPoints prev l).length = l.length := by
  induction l generalizing prev with
  | nil => rfl
  | cons p rest ih => simp [deltaPoints, ih]

theorem deltaPoints_map_jpt_getD (rest : List (Int × Int)) :
    ∀ (prev : Int × Int) (j : Nat), j < rest.length →
      (deltaPoints (jpt prev) (rest.map jpt)).getD j .undefined =
        jpt ((rest.getD j (0, 0)).1 - ((prev :: rest).getD j (0, 0)).1,
             (rest.getD j (0, 0)).2 - ((prev :: rest).getD j (0, 0)).2) := by
  induction rest with
  | nil => intro prev j h; simp at h
  | cons r rest' ih =>
      intro prev j h
      cases j with
      | zero => simp [deltaPoints, jpt, jidx, jsub]
      | succ k =>
          have hk : k < rest'.length := by simpa using h
          simpa [deltaPoints] using ih r k hk

theorem encodeArc_map_jpt_length (pts : List (Int × Int)) :
    (encodeArc (pts.map jpt)).length = pts.length := by
  cases pts with
  | nil => rfl
  | cons p rest => simp [encodeArc, deltaPoints_length]

theorem encodeFeature_fst (acc : List (List JVal)) (f : GFeature) :
    (encodeFeature acc f).1 = acc ++ featureArcs f := rfl

theorem featureArcs_length (f : GFeature) :
    (featureArcs f).length = f.coordinates.length := by
  simp [featureArcs]

theorem encodeFeature_snd (acc : List (List JVal)) (f : GFeature) :
    (encodeFeature acc f).2 = geomOf acc.length f := by
  simp [encodeFeature, geomOf, featureArcs_length]

theorem foldl_encodeStep_fst (fs : List GFeature) :
    ∀ (acc : List (List JVal)) (gs : List TopoGeom),
      (fs.foldl encodeStep (acc, gs)).1 = acc ++ (fs.map featureArcs).flatten := by
  induction fs with
  | nil => intro acc gs; simp
  | cons f fs' ih =>
      intro acc gs
      have : encodeStep (acc, gs) f =
          (acc ++ featureArcs f, gs ++ [geomOf acc.length f]) := by
        simp [encodeStep, encodeFeature_fst, encodeFeature_snd]
      simp only [List.foldl_cons, this, ih, List.map_cons, List.flatten_cons,
        List.append_assoc]

theorem foldl_encodeStep_snd (fs : List GFeature) :
    ∀ (acc : List (List JVal)) (gs : List TopoGeom),
      (fs.foldl encodeStep (acc, gs)).2 = gs ++ geomsFrom acc.length fs := by
  induction fs with
  | nil => intro acc gs; simp [geomsFrom]
  | cons f fs' ih =>
      intro acc gs
      have hstep : encodeStep (acc, gs) f =
          (acc ++ featureArcs f, gs ++ [geomOf acc.length f]) := by
        simp [encodeStep, encodeFeature_fst, encodeFeature_snd]
      have hlen : (acc ++ featureArcs f).length =
          acc.length + f.coordinates.length := by
        simp [featureArcs_length]
      simp only [List.foldl_cons, hstep, ih, hlen, geomsFrom,
        List.append_assoc, List.singleton_append]

theorem fromGeoJSON_arcs (fs : List GFeature) (oid : Option String) :
    (fromGeoJSON fs oid).arcs = (fs.map featureArcs).flatten := by
  simpa [fromGeoJSON] using foldl_encodeStep_fst fs [] []

theorem fromGeoJSON_geometries (fs : List GFeature) (oid : Option String) :
    (fromGeoJSON fs oid).geometries = geomsFrom 0 fs := by
  simpa [fromGeoJSON] using foldl_encodeStep_snd fs [] []

theorem geomsFrom_getElem (fs : List GFeature) :
    ∀ (n k : Nat) (f : GFeature), fs[k]? = some f →
      (geomsFrom n fs)[k]? = some (geomOf (n + startOf fs k) f) := by
  induction fs with
  | nil => intro n k f h; simp at h
  | cons f0 fs' ih =>
      intro n k f h
      cases k with
      | zero =>
          simp only [List.getElem?_cons_zero, Option.some.injEq] at h
          subst h
          simp [geomsFrom, startOf]
      | succ j =>
          simp only [List.getElem?_cons_succ] at h
          have := ih (n + f0.coordinates.length) j f h
          have hstart : startOf (f0 :: fs') (j + 1) =
              f0.coordinates.length + startOf fs' j := by
            simp [startOf]
          simp [geomsFrom, this, hstart, Nat.add_assoc]

/-! ## C1–C4, C8, C10: the delta encoder claims -/

/-- C1: for every (numeric) coordinate path handed to the delta
encoder, the produced arc has the same length as the path, its point 0
is the path's first point copied verbatim, and its point `i ≥ 1` is
`path[i] - path[i-1]` component-wise; moreover every arc of the output
topology arises this way, in feature/path order. -/
theorem fromGeoJSON_arc_delta (pts : List (Int × Int)) :
    (∀ (fs : List GFeature) (oid : Option String),
      (fromGeoJSON fs oid).arcs = (fs.map featureArcs).flatten) ∧
    (encodeArc (pts.map jpt)).length = pts.length ∧
    ∀ i, i < pts.length →
      (encodeArc (pts.map jpt)).getD i .undefined =
        if i = 0 then jpt (pts.getD 0 (0, 0))
        else jpt ((pts.getD i (0, 0)).1 - (pts.getD (i - 1) (0, 0)).1,
                  (pts.getD i (0, 0)).2 - (pts.getD (i - 1) (0, 0)).2) := by
  refine ⟨fromGeoJSON_arcs, encodeArc_map_jpt_length pts, ?_⟩
  intro i h
  cases pts with
  | nil => simp at h
  | cons p rest =>
      cases i with
      | zero => simp [encodeArc]
      | succ j =>
          have hj : j < rest.length := by simpa using h
          have hd := deltaPoints_map_jpt_getD rest p j hj
          simpa [encodeArc] using hd

/-- Witness for C1 at the concrete path `[(0,0), (3,4), (4,4)]`. -/
theorem fromGeoJSON_arc_delta_witness :
    (encodeArc ([((0 : Int), (0 : Int)), (3, 4), (4, 4)].map jpt)).length = 3 ∧
    (encodeArc ([((0 : Int), (0 : Int)), (3, 4), (4, 4)].map jpt)).getD 1 .undefined =
      jpt (3, 4) ∧
    (encodeArc ([((0 : Int), (0 : Int)), (3, 4), (4, 4)].map jpt)).getD 2 .undefined =
      jpt (1, 0) := by
  obtain ⟨-, hlen, hget⟩ := fromGeoJSON_arc_delta [((0 : Int), (0 : Int)), (3, 4), (4, 4)]
  refine ⟨hlen, ?_, ?_⟩
  · simpa using hget 1 (by decide)
  · simpa using hget 2 (by decide)

theorem sumPts_deltaPoints (rest : List (Int × Int)) :
    ∀ q : Int × Int,
      sumPts (jpt q) (deltaPoints (jpt q) (rest.map jpt)) = rest.map jpt := by
  induction rest with
  | nil => intro q; rfl
  | cons p rest' ih =>
      intro q
      have h1 : jadd (jpt q)
          (.arr [jsub (jidx (jpt p) 0) (jidx (jpt q) 0),
                 jsub (jidx (jpt p) 1) (jidx (jpt q) 1)]) = jpt p := by
        simp [jadd, jpt, jidx, jsub]
      simp [deltaPoints, sumPts, h1, ih p]

/-- C2: prefix-summing the displacements of a delta-encoded arc onto
its absolute first point reproduces the original ring exactly, for any
ring with at least two integer points. -/
theorem decode_encode_roundtrip (pts : List (Int × Int))
    (h : 2 ≤ pts.length) :
    decodeArc (encodeArc (pts.map jpt)) = pts.map jpt := by
  cases pts with
  | nil => simp at h
  | cons p rest => simp [encodeArc, decodeArc, sumPts_deltaPoints rest p]

/-- Witness for C2 at the concrete closed ring
`[(0,0), (3,4), (0,0)]`. -/
theorem decode_encode_roundtrip_witness :
    2 ≤ ([((0 : Int), (0 : Int)), (3, 4), (0, 0)] : List (Int × Int)).length ∧
    decodeArc (encodeArc ([((0 : Int), (0 : Int)), (3, 4), (0, 0)].map jpt)) =
      [((0 : Int), (0 : Int)), (3, 4), (0, 0)].map jpt :=
  ⟨by decide, decode_encode_roundtrip _ (by decide)⟩

/-- C3: the output arc list is exactly the concatenation, in input
feature/path order, of each feature's encoded arcs, so its length is
the total number of coordinate paths across all input features. -/
theorem fromGeoJSON_arc_count_order (fs : List GFeature)
    (oid : Option String) :
    (fromGeoJSON fs oid).arcs = (fs.map featureArcs).flatten ∧
    (fromGeoJSON fs oid).arcs.length =
      (fs.map fun f => f.coordinates.length).sum := by
  refine ⟨fromGeoJSON_arcs fs oid, ?_⟩
  rw [fromGeoJSON_arcs fs oid, List.length_flatten, List.map_map]
  have hcomp : List.length ∘ featureArcs =
      fun f : GFeature => f.coordinates.length := by
    funext f
    simp [featureArcs_length]
  rw [hcomp]

/-- C4: a feature with exactly one coordinate path is emitted as a
`Polygon` whose single ring-group lists its arc index; a feature with
more than one path is emitted as a `MultiPolygon` whose parts each wrap
one arc index as an independent one-ring polygon. -/
theorem fromGeoJSON_geometry_shape (fs : List GFeature)
    (oid : Option String) (k : Nat) (f : GFeature) (h : fs[k]? = some f) :
    (f.coordinates.length = 1 →
      (fromGeoJSON fs oid).geometries[k]? =
        some (.polygon f.id [[startOf fs k]])) ∧
    (1 < f.coordinates.length →
      (fromGeoJSON fs oid).geometries[k]? =
        some (.multiPolygon f.id
          ((List.range' (startOf fs k) f.coordinates.length).map
            fun i => [[i]]))) := by
  have hg := geomsFrom_getElem fs 0 k f h
  rw [fromGeoJSON_geometries]
  constructor
  · intro h1
    rw [hg]
    simp [geomOf, h1, List.range']
  · intro h1
    rw [hg]
    simp [geomOf, Nat.lt_asymm, h1, Nat.not_lt_of_lt]

/-- Witness for C4: a single-path feature and a two-path feature. -/
theorem fromGeoJSON_geometry_shape_witness :
    (fromGeoJSON
        [⟨"a", "Polygon", [JVal.arr [jpt (0, 0), jpt (1, 1)]]⟩,
         ⟨"b", "MultiPolygon",
           [JVal.arr [JVal.arr [jpt (0, 0), jpt (1, 0)]],
            JVal.arr [JVal.arr [jpt (2, 0), jpt (3, 0)]]]⟩] none).geometries[0]? =
      some (.polygon "a" [[0]]) ∧
    (fromGeoJSON
        [⟨"a", "Polygon", [JVal.arr [jpt (0, 0), jpt (1, 1)]]⟩,
         ⟨"b", "MultiPolygon",
           [JVal.arr [JVal.arr [jpt (0, 0), jpt (1, 0)]],
            JVal.arr [JVal.arr [jpt (2, 0), jpt (3, 0)]]]⟩] none).geometries[1]? =
      some (.multiPolygon "b" [[[1]], [[2]]]) := by
  constructor
  · have := (fromGeoJSON_geometry_shape
      [⟨"a", "Polygon", [JVal.arr [jpt (0, 0), jpt (1, 1)]]⟩,
       ⟨"b", "MultiPolygon",
         [JVal.arr [JVal.arr [jpt (0, 0), jpt (1, 0)]],
          JVal.arr [JVal.arr [jpt (2, 0), jpt (3, 0)]]]⟩] none 0 _ rfl).1 rfl
    simpa [startOf] using this
  · have := (fromGeoJSON_geometry_shape
      [⟨"a", "Polygon", [JVal.arr [jpt (0, 0), jpt (1, 1)]]⟩,
       ⟨"b", "MultiPolygon",
         [JVal.arr [JVal.arr [jpt (0, 0), jpt (1, 0)]],
          JVal.arr [JVal.arr [jpt (2, 0), jpt (3, 0)]]]⟩] none 1 _ rfl).2
      (by decide)
    simpa [startOf, List.range'] using this

/-- C8 counterexample: the encoder performs no validation.  A feature
with zero coordinate paths is encoded without any error into a
`Polygon` geometry with the empty ring-group `[[]]` and contributes no
arc, and a feature whose single path has zero points is encoded into an
empty arc — contradicting the claimed `MalformedGeometryError`. -/
theorem fromGeoJSON_malformed_counterexample :
    fromGeoJSON [⟨"X", "Polygon", []⟩] none =
      ⟨"states", [.polygon "X" [[]]], [], (1, 1), (0, 0)⟩ ∧
    fromGeoJSON [⟨"X", "Polygon", [JVal.arr []]⟩] none =
      ⟨"states", [.polygon "X" [[0]]], [[]], (1, 1), (0, 0)⟩ :=
  ⟨rfl, rfl⟩

/-- C8 amended: the encoder never raises on malformed geometry; a
feature with zero coordinate paths leaves the arc list untouched and
emits `Polygon` with the empty ring-group `[[]]`, and a path with fewer
than two points is copied verbatim as its arc (an empty or single-point
arc) instead of being rejected. -/
theorem fromGeoJSON_malformed_behavior :
    (∀ (acc : List (List JVal)) (f : GFeature), f.coordinates = [] →
      encodeFeature acc f = (acc, .polygon f.id [[]])) ∧
    (∀ points : List JVal, points.length ≤ 1 → encodeArc points = points) := by
  constructor
  · intro acc f h
    simp [encodeFeature, featureArcs, h, List.range']
  · intro points h
    match points with
    | [] => rfl
    | [p] => rfl

/-- Witness for the amended C8 at a pathless feature and a one-point
path. -/
theorem fromGeoJSON_malformed_behavior_witness :
    encodeFeature [] ⟨"X", "Polygon", []⟩ = ([], .polygon "X" [[]]) ∧
    encodeArc [jpt (5, 5)] = [jpt (5, 5)] :=
  ⟨fromGeoJSON_malformed_behavior.1 [] ⟨"X", "Polygon", []⟩ rfl,
   fromGeoJSON_malformed_behavior.2 [jpt (5, 5)] (by simp)⟩

/-- C10: the output geometry type depends only on the number of entries
of `feature.geometry.coordinates` (`"MultiPolygon"` iff more than one);
the declared input geometry type is never consulted; and a feature
declared `"MultiPolygon"` with exactly one part is emitted as a
`Polygon` whose path (the one-element list containing the ring) is
delta-encoded whole, the outer ring not being extracted. -/
theorem fromGeoJSON_type_by_count :
    (∀ (fs : List GFeature) (t : String) (oid : Option String),
      fromGeoJSON (fs.map fun f => { f with declaredType := t }) oid =
        fromGeoJSON fs oid) ∧
    (∀ (fs : List GFeature) (oid : Option String) (k : Nat),
      ((fromGeoJSON fs oid).geometries[k]?).map TopoGeom.isMulti =
        (fs[k]?).map fun f => decide (1 < f.coordinates.length)) ∧
    fromGeoJSON
        [⟨"f1", "MultiPolygon",
          [JVal.arr [JVal.arr [jpt (0, 0), jpt (3, 4), jpt (0, 0)]]]⟩] none =
      ⟨"states", [.polygon "f1" [[0]]],
        [[JVal.arr [jpt (0, 0), jpt (3, 4), jpt (0, 0)]]], (1, 1), (0, 0)⟩ := by
  refine ⟨?_, ?_, rfl⟩
  · intro fs t oid
    have hfold : ∀ (init : List (List JVal) × List TopoGeom),
        (fs.map fun f => { f with declaredType := t }).foldl encodeStep init =
          fs.foldl encodeStep init := by
      induction fs with
      | nil => intro init; rfl
      | cons f fs' ih => intro init; simpa using ih _
    simp [fromGeoJSON, hfold]
  · intro fs oid k
    rw [fromGeoJSON_geometries]
    have : ∀ (gs : List GFeature) (n k : Nat),
        ((geomsFrom n gs)[k]?).map TopoGeom.isMulti =
          (gs[k]?).map fun f => decide (1 < f.coordinates.length) := by
      intro gs
      induction gs with
      | nil => intro n k; simp [geomsFrom]
      | cons f0 gs' ih =>
          intro n k
          cases k with
          | zero =>
              by_cases h : 1 < f0.coordinates.length <;>
                simp [geomsFrom, geomOf, TopoGeom.isMulti, h]
          | succ j => simpa [geomsFrom] using ih (n + f0.coordinates.length) j
    exact this fs 0 k

/-! ## Lemmas about the aggregation object -/

theorem getVal_setVal_self (o : StateMap) (k : String)
    (v : Option (List Tile)) : getVal (setVal o k v) k = some v := by
  induction o with
  | nil => simp [setVal, getVal]
  | cons e es ih => by_cases h : e.1 = k <;> simp [setVal, getVal, h, ih]

theorem keysOf_nil : keysOf [] = [] := rfl

theorem keysOf_cons (e : String × Option (List Tile)) (l : StateMap) :
    keysOf (e :: l) = e.1 :: keysOf l := rfl

theorem getVal_setVal_ne (o : StateMap) (k k' : String)
    (v : Option (List Tile)) (h : k' ≠ k) :
    getVal (setVal o k v) k' = getVal o k' := by
  have hkk : ¬(k = k') := fun h' => h h'.symm
  induction o with
  | nil => simp [setVal, getVal, hkk]
  | cons e es ih =>
      by_cases he : e.1 = k
      · simp [setVal, getVal, he, hkk]
      · by_cases he' : e.1 = k' <;> simp [setVal, getVal, he, he', h, ih]

theorem keysOf_setVal (o : StateMap) (k : String) (v : Option (List Tile)) :
    keysOf (setVal o k v) = insertKey (keysOf o) k := by
  induction o with
  | nil => simp [setVal, keysOf, insertKey]
  | cons e es ih =>
      by_cases h : e.1 = k
      · simp [setVal, h, keysOf_cons, insertKey]
      · have hne : ¬(k = e.1) := fun h' => h h'.symm
        by_cases hm : k ∈ keysOf es <;>
          simp [setVal, h, keysOf_cons, ih, insertKey, hm, hne]

theorem getVal_eq_none_iff (o : StateMap) (k : String) :
    getVal o k = none ↔ k ∉ keysOf o := by
  induction o with
  | nil => simp [getVal, keysOf]
  | cons e es ih =>
      by_cases h : e.1 = k
      · simp [getVal, h, keysOf_cons]
      · have hne : ¬(k = e.1) := fun h' => h h'.symm
        simp [getVal, h, keysOf_cons, ih, hne]

theorem getVal_addTile_ne (o : StateMap) (t : Tile) (k : String)
    (h : k ≠ t.id) : getVal (addTile o t) k = getVal o k := by
  unfold addTile
  split <;> exact getVal_setVal_ne o t.id k _ h

theorem getVal_addDataset_ne (o : StateMap) (d : String × Int) (k : String)
    (h : k ≠ d.1) : getVal (addDataset o d) k = getVal o k := by
  unfold addDataset
  split
  · rfl
  · exact getVal_setVal_ne o d.1 k _ h

theorem keysOf_addTile (o : StateMap) (t : Tile) :
    keysOf (addTile o t) = insertKey (keysOf o) t.id := by
  unfold addTile
  split <;> exact keysOf_setVal o t.id _

theorem keysOf_addDataset (o : StateMap) (d : String × Int) :
    keysOf (addDataset o d) = insertKey (keysOf o) d.1 := by
  unfold addDataset
  split
  · next l heq =>
      have hmem : d.1 ∈ keysOf o := by
        by_contra hc
        rw [← getVal_eq_none_iff] at hc
        rw [hc] at heq
        cases heq
      simp [insertKey, hmem]
  · exact keysOf_setVal o d.1 none

theorem getVal_foldl_addTile_arr (tiles : List Tile) :
    ∀ (o : StateMap) (id : String) (l : List Tile),
      getVal o id = some (some l) →
      getVal (tiles.foldl addTile o) id =
        some (some (l ++ tiles.filter fun t => t.id = id)) := by
  induction tiles with
  | nil => intro o id l h; simpa using h
  | cons t ts ih =>
      intro o id l h
      by_cases hid : t.id = id
      · subst hid
        have hstep : addTile o t = setVal o t.id (some (l ++ [t])) := by
          simp [addTile, h]
        have hget : getVal (setVal o t.id (some (l ++ [t]))) t.id =
            some (some (l ++ [t])) := getVal_setVal_self o t.id _
        have := ih (setVal o t.id (some (l ++ [t]))) t.id (l ++ [t]) hget
        simpa [hstep, List.filter_cons, List.append_assoc] using this
      · have hstep : getVal (addTile o t) id = getVal o id :=
          getVal_addTile_ne o t id fun h' => hid h'.symm
        have := ih (addTile o t) id l (hstep.trans h)
        simpa [List.filter_cons, hid] using this

theorem getVal_foldl_addTile_falsy (tiles : List Tile) :
    ∀ (o : StateMap) (id : String),
      (getVal o id = none ∨ getVal o id = some none) →
      getVal (tiles.foldl addTile o) id =
        if id ∈ tiles.map Tile.id then
          some (some (tiles.filter fun t => t.id = id))
        else getVal o id := by
  induction tiles with
  | nil => intro o id h; simp
  | cons t ts ih =>
      intro o id h
      by_cases hid : t.id = id
      · subst hid
        have hstep : addTile o t = setVal o t.id (some [t]) := by
          rcases h with h | h <;> simp [addTile, h]
        have hget : getVal (setVal o t.id (some [t])) t.id = some (some [t]) :=
          getVal_setVal_self o t.id _
        have := getVal_foldl_addTile_arr ts (setVal o t.id (some [t])) t.id [t] hget
        simpa [hstep, List.filter_cons] using this
      · have hstep : getVal (addTile o t) id = getVal o id :=
          getVal_addTile_ne o t id fun h' => hid h'.symm
        have hid' : ¬(id = t.id) := fun h' => hid h'.symm
        have := ih (addTile o t) id (by rw [hstep]; exact h)
        rw [List.foldl_cons, this, hstep]
        simp [List.filter_cons, hid, hid']

theorem getVal_foldl_addDataset_arr (ds : List (String × Int)) :
    ∀ (o : StateMap) (id : String) (l : List Tile),
      getVal o id = some (some l) →
      getVal (ds.foldl addDataset o) id = some (some l) := by
  induction ds with
  | nil => intro o id l h; simpa using h
  | cons d ds' ih =>
      intro o id l h
      by_cases hd : d.1 = id
      · subst hd
        have hstep : addDataset o d = o := by simp [addDataset, h]
        rw [List.foldl_cons, hstep]
        exact ih o d.1 l h
      · have hstep : getVal (addDataset o d) id = getVal o id :=
          getVal_addDataset_ne o d id fun h' => hd h'.symm
        exact ih (addDataset o d) id l (hstep.trans h)

theorem getVal_foldl_addDataset_null (ds : List (String × Int)) :
    ∀ (o : StateMap) (id : String), getVal o id = some none →
      getVal (ds.foldl addDataset o) id = some none := by
  induction ds with
  | nil => intro o id h; simpa using h
  | cons d ds' ih =>
      intro o id h
      by_cases hd : d.1 = id
      · subst hd
        have hstep : addDataset o d = setVal o d.1 none := by
          simp [addDataset, h]
        rw [List.foldl_cons, hstep]
        exact ih _ d.1 (getVal_setVal_self o d.1 none)
      · have hstep : getVal (addDataset o d) id = getVal o id :=
          getVal_addDataset_ne o d id fun h' => hd h'.symm
        exact ih (addDataset o d) id (hstep.trans h)

theorem getVal_foldl_addDataset_mem (ds : List (String × Int)) :
    ∀ (o : StateMap) (id : String),
      (getVal o id = none ∨ getVal o id = some none) →
      id ∈ ds.map Prod.fst →
      getVal (ds.foldl addDataset o) id = some none := by
  induction ds with
  | nil => intro o id h hm; simp at hm
  | cons d ds' ih =>
      intro o id h hm
      by_cases hd : d.1 = id
      · subst hd
        have hstep : addDataset o d = setVal o d.1 none := by
          rcases h with h | h <;> simp [addDataset, h]
        rw [List.foldl_cons, hstep]
        exact getVal_foldl_addDataset_null ds' _ d.1
          (getVal_setVal_self o d.1 none)
      · have hm' : id ∈ ds'.map Prod.fst := by
          rcases List.mem_cons.mp hm with h' | h'
          · exact absurd h'.symm hd
          · exact h'
        have hstep : getVal (addDataset o d) id = getVal o id :=
          getVal_addDataset_ne o d id fun h' => hd h'.symm
        exact ih (addDataset o d) id (by rw [hstep]; exact h) hm'

theorem keysOf_foldl_addTile (tiles : List Tile) :
    ∀ o : StateMap, keysOf (tiles.foldl addTile o) =
      (tiles.map Tile.id).foldl insertKey (keysOf o) := by
  induction tiles with
  | nil => intro o; rfl
  | cons t ts ih =>
      intro o
      rw [List.foldl_cons, ih, List.map_cons, List.foldl_cons, keysOf_addTile]

theorem keysOf_foldl_addDataset (ds : List (String × Int)) :
    ∀ o : StateMap, keysOf (ds.foldl addDataset o) =
      (ds.map Prod.fst).foldl insertKey (keysOf o) := by
  induction ds with
  | nil => intro o; rfl
  | cons d ds' ih =>
      intro o
      rw [List.foldl_cons, ih, List.map_cons, List.foldl_cons, keysOf_addDataset]

theorem keysOf_tilesByState (tiles : List Tile) (ds : List (String × Int)) :
    keysOf (tilesByState tiles ds) =
      firstKeys (tiles.map Tile.id ++ ds.map Prod.fst) := by
  unfold tilesByState firstKeys
  rw [keysOf_foldl_addDataset, keysOf_foldl_addTile, List.foldl_append]
  rfl

theorem mem_insertKey (ks : List String) (k x : String) :
    x ∈ insertKey ks k ↔ x ∈ ks ∨ x = k := by
  unfold insertKey
  split
  · next h =>
      constructor
      · exact Or.inl
      · rintro (h' | rfl)
        · exact h'
        · exact h
  · simp

theorem mem_foldl_insertKey (l : List String) :
    ∀ (ks : List String) (x : String),
      x ∈ l.foldl insertKey ks ↔ x ∈ ks ∨ x ∈ l := by
  induction l with
  | nil => intro ks x; simp
  | cons a l' ih =>
      intro ks x
      rw [List.foldl_cons, ih, mem_insertKey]
      simp [or_assoc]

theorem nodup_insertKey (ks : List String) (k : String) (h : ks.Nodup) :
    (insertKey ks k).Nodup := by
  unfold insertKey
  split
  · exact h
  · next hm => simp [List.nodup_append, h, hm]

theorem nodup_foldl_insertKey (l : List String) :
    ∀ ks : List String, ks.Nodup → (l.foldl insertKey ks).Nodup := by
  induction l with
  | nil => intro ks h; exact h
  | cons a l' ih => intro ks h; exact ih _ (nodup_insertKey ks a h)

theorem foldl_insertKey_of_nodup (l : List String) :
    ∀ ks : List String, (ks ++ l).Nodup → l.foldl insertKey ks = ks ++ l := by
  induction l with
  | nil => intro ks h; simp
  | cons a l' ih =>
      intro ks h
      have ha : a ∉ ks := by
        intro hc
        exact (List.disjoint_of_nodup_append h) hc (List.mem_cons_self a l')
      have hstep : insertKey ks a = ks ++ [a] := by simp [insertKey, ha]
      have hn : ((ks ++ [a]) ++ l').Nodup := by
        simpa [List.append_assoc] using h
      rw [List.foldl_cons, hstep, ih (ks ++ [a]) hn, List.append_assoc]
      rfl

theorem firstKeys_of_nodup (l : List String) (h : l.Nodup) :
    firstKeys l = l := by
  unfold firstKeys
  simpa using foldl_insertKey_of_nodup l [] (by simpa using h)

theorem perm_insertByNum (s : String) (l : List String) :
    List.Perm (insertByNum s l) (s :: l) := by
  induction l with
  | nil => exact List.Perm.refl _
  | cons t ts ih =>
      unfold insertByNum
      split
      · exact List.Perm.refl _
      · exact (List.Perm.cons t ih).trans (List.Perm.swap s t ts)

theorem perm_sortByNum (l : List String) : List.Perm (sortByNum l) l := by
  induction l with
  | nil => rfl
  | cons a l' ih =>
      exact (perm_insertByNum a (sortByNum l')).trans (List.Perm.cons a ih)

theorem perm_jsKeys (o : StateMap) : List.Perm (jsKeys o) (keysOf o) := by
  unfold jsKeys
  exact ((perm_sortByNum _).append_right _).trans
    (List.filter_append_perm _ (keysOf o))

theorem jsKeys_of_no_arrayIndex (o : StateMap)
    (h : ∀ k ∈ keysOf o, isArrayIndex k = false) : jsKeys o = keysOf o := by
  unfold jsKeys
  have h1 : (keysOf o).filter (fun k => isArrayIndex k) = [] := by
    simp only [List.filter_eq_nil_iff]
    intro k hk
    simp [h k hk]
  have h2 : (keysOf o).filter (fun k => !isArrayIndex k) = keysOf o := by
    rw [List.filter_eq_self]
    intro k hk
    simp [h k hk]
  rw [h1, h2]
  rfl

theorem tilesByState_get_tile (tiles : List Tile) (ds : List (String × Int))
    (id : String) (h : id ∈ tiles.map Tile.id) :
    getVal (tilesByState tiles ds) id =
      some (some (tiles.filter fun t => t.id = id)) := by
  unfold tilesByState
  have h0 : getVal ([] : StateMap) id = none ∨
      getVal ([] : StateMap) id = some none := Or.inl rfl
  have h1 := getVal_foldl_addTile_falsy tiles [] id h0
  rw [if_pos h] at h1
  exact getVal_foldl_addDataset_arr ds _ id _ h1

theorem tilesByState_get_null (tiles : List Tile) (ds : List (String × Int))
    (id : String) (h1 : id ∉ tiles.map Tile.id)
    (h2 : id ∈ ds.map Prod.fst) :
    getVal (tilesByState tiles ds) id = some none := by
  unfold tilesByState
  have h0 : getVal ([] : StateMap) id = none ∨
      getVal ([] : StateMap) id = some none := Or.inl rfl
  have ht := getVal_foldl_addTile_falsy tiles [] id h0
  rw [if_neg h1] at ht
  exact getVal_foldl_addDataset_mem ds _ id (Or.inl (ht.trans rfl)) h2

/-! ## C5: the aggregation claim -/

/-- C5 counterexample: for tiles with region ids `"5"` then `"3"` (and
an empty dataset) the aggregation object's key enumeration is
`["3", "5"]` — ascending numeric order, because both ids are ECMAScript
array-index strings — while the order of first appearance in the tiles
is `["5", "3"]`.  The claimed insertion-order iteration therefore fails
on the code. -/
theorem tilesByState_order_counterexample :
    jsKeys (tilesByState [⟨"5", ⟨0, 0⟩⟩, ⟨"3", ⟨0, 0⟩⟩] []) = ["3", "5"] ∧
    firstKeys (([⟨"5", ⟨0, 0⟩⟩, ⟨"3", ⟨0, 0⟩⟩] : List Tile).map Tile.id ++
      ([] : List (String × Int)).map Prod.fst) = ["5", "3"] ∧
    (["3", "5"] : List String) ≠ ["5", "3"] := by
  refine ⟨by decide, by decide, by decide⟩

/-- C5 amended: the aggregation maps each region id occurring in the
tiles to its tiles in input order, maps each dataset-only id to `null`,
contains every dataset id exactly once, and its keys in
property-creation order are the ids in order of first appearance (tiles
first, then dataset-only ids in dataset order); the enumeration order
`Object.keys` exposes coincides with that insertion order whenever no
region id is an ECMAScript array-index string, while array-index ids
are enumerated first, in ascending numeric order. -/
theorem tilesByState_spec_amended (tiles : List Tile)
    (dataset : List (String × Int)) :
    (∀ id ∈ tiles.map Tile.id,
      getVal (tilesByState tiles dataset) id =
        some (some (tiles.filter fun t => t.id = id))) ∧
    (∀ id, id ∉ tiles.map Tile.id → id ∈ dataset.map Prod.fst →
      getVal (tilesByState tiles dataset) id = some none) ∧
    keysOf (tilesByState tiles dataset) =
      firstKeys (tiles.map Tile.id ++ dataset.map Prod.fst) ∧
    (jsKeys (tilesByState tiles dataset)).Nodup ∧
    (∀ d ∈ dataset, d.1 ∈ jsKeys (tilesByState tiles dataset)) ∧
    ((∀ k ∈ keysOf (tilesByState tiles dataset), isArrayIndex k = false) →
      jsKeys (tilesByState tiles dataset) =
        firstKeys (tiles.map Tile.id ++ dataset.map Prod.fst)) := by
  refine ⟨fun id h => tilesByState_get_tile tiles dataset id h,
          fun id h1 h2 => tilesByState_get_null tiles dataset id h1 h2,
          keysOf_tilesByState tiles dataset, ?_, ?_, ?_⟩
  · have hk : (keysOf (tilesByState tiles dataset)).Nodup := by
      rw [keysOf_tilesByState]
      exact nodup_foldl_insertKey _ [] List.nodup_nil
    exact ((perm_jsKeys _).nodup_iff).mpr hk
  · intro d hd
    rw [(perm_jsKeys _).mem_iff, keysOf_tilesByState]
    unfold firstKeys
    rw [mem_foldl_insertKey]
    right
    rw [List.mem_append]
    right
    exact List.mem_map_of_mem Prod.fst hd
  · intro h
    rw [jsKeys_of_no_arrayIndex _ h, keysOf_tilesByState]

/-- Witness for the amended C5 at tiles `[{id: "A"}]` and dataset
`[("A", 10), ("B", 20)]`. -/
theorem tilesByState_spec_amended_witness :
    getVal (tilesByState [⟨"A", ⟨0, 0⟩⟩] [("A", 10), ("B", 20)]) "A" =
      some (some [⟨"A", ⟨0, 0⟩⟩]) ∧
    getVal (tilesByState [⟨"A", ⟨0, 0⟩⟩] [("A", 10), ("B", 20)]) "B" =
      some none ∧
    jsKeys (tilesByState [⟨"A", ⟨0, 0⟩⟩] [("A", 10), ("B", 20)]) =
      ["A", "B"] := by
  obtain ⟨h1, h2, -, -, -, h6⟩ :=
    tilesByState_spec_amended [⟨"A", ⟨0, 0⟩⟩] [("A", 10), ("B", 20)]
  exact ⟨(h1 "A" (by decide)).trans (by decide),
         h2 "B" (by decide) (by decide),
         (h6 (by decide)).trans (by decide)⟩

/-! ## C6: geometry selection of the primary exporter -/

theorem tileHexagon_closed (g : GridGeometry) (mY : Option Int) (t : Tile)
    (hne : ∀ c b, g.getPointsAround c b ≠ []) :
    (tileHexagon g mY t).head? = (tileHexagon g mY t).getLast? := by
  simp only [tileHexagon]
  obtain ⟨hd, tl, hcons⟩ := List.exists_cons_of_ne_nil
    (hne (g.tileCenterPoint t.position.x (flippedY mY t.position.y)) true)
  rw [hcons]
  simp only [List.headD_cons, List.cons_append, List.head?_cons]
  rw [show hd :: (tl ++ [hd]) = (hd :: tl) ++ [hd] from by simp,
      List.getLast?_concat]

/-- C6: in the primary exporter, a region with exactly one tile yields a
`Polygon` feature, a region with `N ≥ 2` tiles yields a `MultiPolygon`
with exactly `N` parts (one closed hexagon ring per tile), and a region
with no tiles yields a feature with `null` geometry that still carries
its id and properties. -/
theorem buildFeature_geometry_selection (g : GridGeometry)
    (mY : Option Int) (dataset : List (String × Int))
    (geoHash : String → Option String) (id nm : String)
    (dEntry : String × Int)
    (hname : geoHash id = some nm)
    (hmetric : dataset.find? (fun d => d.1 = id) = some dEntry)
    (hne : ∀ c b, g.getPointsAround c b ≠ []) :
    (∀ t : Tile, buildFeature g geoHash dataset mY id (some [t]) =
      .ok ⟨id, some (.polygon [tileHexagon g mY t]), nm, dEntry.2⟩) ∧
    (∀ l : List Tile, 2 ≤ l.length →
      buildFeature g geoHash dataset mY id (some l) =
        .ok ⟨id, some (.multiPolygon (l.map fun t => [tileHexagon g mY t])),
             nm, dEntry.2⟩ ∧
      (l.map fun t => [tileHexagon g mY t]).length = l.length) ∧
    buildFeature g geoHash dataset mY id none =
      .ok ⟨id, none, nm, dEntry.2⟩ ∧
    (∀ t : Tile, (tileHexagon g mY t).head? = (tileHexagon g mY t).getLast?) := by
  refine ⟨?_, ?_, ?_, fun t => tileHexagon_closed g mY t hne⟩
  · intro t
    simp [buildFeature, buildGeometry, hname, hmetric]
  · intro l hl
    have hlen : ¬(l.length = 1) := by omega
    refine ⟨?_, by simp⟩
    simp [buildFeature, buildGeometry, hname, hmetric, hlen, Function.comp]
  · simp [buildFeature, buildGeometry, hname, hmetric]

/-- Witness for C6: one-tile, two-tile and zero-tile regions with a
concrete grid collaborator. -/
theorem buildFeature_geometry_selection_witness :
    buildFeature gridW (fun _ => some "SName") [("S", 7)] none "S"
        (some [⟨"S", ⟨0, 0⟩⟩]) =
      .ok ⟨"S", some (.polygon [tileHexagon gridW none ⟨"S", ⟨0, 0⟩⟩]),
           "SName", 7⟩ ∧
    buildFeature gridW (fun _ => some "SName") [("S", 7)] none "S"
        (some [⟨"S", ⟨0, 0⟩⟩, ⟨"S", ⟨1, 0⟩⟩]) =
      .ok ⟨"S", some (.multiPolygon
             [[tileHexagon gridW none ⟨"S", ⟨0, 0⟩⟩],
              [tileHexagon gridW none ⟨"S", ⟨1, 0⟩⟩]]), "SName", 7⟩ ∧
    buildFeature gridW (fun _ => some "SName") [("S", 7)] none "S" none =
      .ok ⟨"S", none, "SName", 7⟩ := by
  obtain ⟨h1, h2, h3, -⟩ := buildFeature_geometry_selection gridW none
    [("S", 7)] (fun _ => some "SName") "S" "SName" ("S", 7) rfl (by decide)
    (by intro c b; simp [gridW])
  refine ⟨h1 ⟨"S", ⟨0, 0⟩⟩, ?_, h3⟩
  have := (h2 [⟨"S", ⟨0, 0⟩⟩, ⟨"S", ⟨1, 0⟩⟩] (by decide)).1
  simpa using this

/-! ## C7: fatal lookup failures -/

theorem exceptBind_ok {α β : Type} (x : α)
    (g : α → Except LookupError β) :
    (Except.ok x >>= g : Except LookupError β) = g x := rfl

theorem exceptBind_error {α β : Type} (e : LookupError)
    (g : α → Except LookupError β) :
    (Except.error e >>= g : Except LookupError β) = Except.error e := rfl

theorem mapM_error_of_mem (l : List String)
    (f : String → Except LookupError Feature) :
    ∀ x ∈ l, (∀ r, f x ≠ .ok r) → ∃ e, l.mapM f = .error e := by
  induction l with
  | nil => intro x hx; simp at hx
  | cons a l' ih =>
      intro x hx hfail
      cases hfa : f a with
      | error e =>
          refine ⟨e, ?_⟩
          rw [List.mapM_cons, hfa, exceptBind_error]
      | ok b =>
          rcases List.mem_cons.mp hx with rfl | hx'
          · exact absurd hfa (hfail b)
          · obtain ⟨e, he⟩ := ih x hx' hfail
            refine ⟨e, ?_⟩
            rw [List.mapM_cons, hfa, exceptBind_ok, he, exceptBind_error]

theorem mapM_ok_of_forall (l : List String)
    (f : String → Except LookupError Feature)
    (h : ∀ x ∈ l, ∃ y, f x = .ok y) :
    ∃ out, l.mapM f = .ok out ∧ out.length = l.length ∧
      ∀ x ∈ l, ∃ y ∈ out, f x = .ok y := by
  induction l with
  | nil => exact ⟨[], rfl, rfl, by simp⟩
  | cons a l' ih =>
      obtain ⟨b, hb⟩ := h a (List.mem_cons_self a l')
      obtain ⟨out, ho, hlen, hmem⟩ :=
        ih fun x hx => h x (List.mem_cons_of_mem a hx)
      refine ⟨b :: out, ?_, by simp [hlen], ?_⟩
      · rw [List.mapM_cons, hb, exceptBind_ok, ho, exceptBind_ok]
        rfl
      · intro x hx
        rcases List.mem_cons.mp hx with rfl | hx'
        · exact ⟨b, List.mem_cons_self b out, hb⟩
        · obtain ⟨y, hy, hfy⟩ := hmem x hx'
          exact ⟨y, List.mem_cons_of_mem b hy, hfy⟩

theorem mapM_congr_except (l : List String)
    (f g : String → Except LookupError Feature)
    (h : ∀ x ∈ l, f x = g x) : l.mapM f = l.mapM g := by
  induction l with
  | nil => rfl
  | cons a l' ih =>
      rw [List.mapM_cons, List.mapM_cons, h a (List.mem_cons_self a l'),
          ih fun x hx => h x (List.mem_cons_of_mem a hx)]

/-- C7: whenever some tile's region id is absent from the geography
name table or from the dataset, the primary exporter aborts with a
lookup error and produces no (partial) feature collection. -/
theorem toTopoJson_lookup_error (g : GridGeometry)
    (geoHash : String → Option String) (tiles : List Tile)
    (dataset : List (String × Int)) (t : Tile) (ht : t ∈ tiles)
    (hmiss : geoHash t.id = none ∨
      dataset.find? (fun d => d.1 = t.id) = none) :
    ∃ e, toTopoJson g geoHash tiles dataset = .error e := by
  have hidmem : t.id ∈ tiles.map Tile.id := List.mem_map_of_mem Tile.id ht
  have hget := tilesByState_get_tile tiles dataset t.id hidmem
  have hkey : t.id ∈ keysOf (tilesByState tiles dataset) := by
    by_contra hc
    rw [← getVal_eq_none_iff] at hc
    rw [hget] at hc
    cases hc
  have hjs : t.id ∈ jsKeys (tilesByState tiles dataset) :=
    ((perm_jsKeys _).mem_iff).mpr hkey
  unfold toTopoJson
  apply mapM_error_of_mem _ _ t.id hjs
  intro r
  rcases hmiss with h | h
  · simp [buildFeature, h]
  · cases hg : geoHash t.id <;> simp [buildFeature, hg, h]

/-- Witness for C7: a tile whose region id the geography table cannot
resolve. -/
theorem toTopoJson_lookup_error_witness :
    ∃ e, toTopoJson gridW (fun _ => none) [⟨"X", ⟨0, 0⟩⟩] [("X", 5)] =
      .error e :=
  toTopoJson_lookup_error gridW (fun _ => none) [⟨"X", ⟨0, 0⟩⟩] [("X", 5)]
    ⟨"X", ⟨0, 0⟩⟩ (List.mem_singleton.mpr rfl) (Or.inl rfl)

/-! ## C9: the empty-tiles degenerate case -/

theorem getVal_foldl_addDataset_falsy (ds : List (String × Int)) :
    ∀ o : StateMap, (∀ k, getVal o k = none ∨ getVal o k = some none) →
      ∀ k, getVal (ds.foldl addDataset o) k = none ∨
        getVal (ds.foldl addDataset o) k = some none := by
  induction ds with
  | nil => intro o h k; exact h k
  | cons d ds' ih =>
      intro o h k
      apply ih
      intro k'
      by_cases hd : k' = d.1
      · subst hd
        have hstep : addDataset o d = setVal o d.1 none := by
          rcases h d.1 with h' | h' <;> simp [addDataset, h']
        rw [hstep]
        exact Or.inr (getVal_setVal_self o d.1 none)
      · rw [getVal_addDataset_ne o d k' hd]
        exact h k'

theorem find?_fst_eq_of_nodup (ds : List (String × Int)) :
    (ds.map Prod.fst).Nodup →
      ∀ d ∈ ds, ds.find? (fun e => e.1 = d.1) = some d := by
  induction ds with
  | nil => intro h d hd; simp at hd
  | cons e ds' ih =>
      intro h d hd
      rw [List.map_cons] at h
      have hn := List.nodup_cons.mp h
      rcases List.mem_cons.mp hd with rfl | hd'
      · simp [List.find?]
      · have hne : ¬(e.1 = d.1) := by
          intro hc
          have hmem : d.1 ∈ ds'.map Prod.fst :=
            List.mem_map_of_mem Prod.fst hd'
          rw [← hc] at hmem
          exact hn.1 hmem
        rw [List.find?_cons_of_neg _ (by simp [hne])]
        exact ih hn.2 d hd'

/-- C9: with no tiles and a (well-formed) non-empty dataset, the primary
exporter raises no error, performs no tile-geometry computation (its
output does not depend on the grid-geometry collaborator, so the
`-Infinity`
`maxTileY` never reaches any arithmetic consumer), and emits one
feature per dataset entry with the correct id, `null` geometry and its
properties. -/
theorem toTopoJson_empty_tiles (dataset : List (String × Int))
    (geoHash : String → Option String)
    (hnodup : (dataset.map Prod.fst).Nodup)
    (hgeo : ∀ d ∈ dataset, ∃ nm, geoHash d.1 = some nm) :
    (∀ g1 g2 : GridGeometry,
      toTopoJson g1 geoHash [] dataset = toTopoJson g2 geoHash [] dataset) ∧
    ∀ g : GridGeometry, ∃ feats,
      toTopoJson g geoHash [] dataset = .ok feats ∧
      feats.length = dataset.length ∧
      ∀ d ∈ dataset, ∃ nm, geoHash d.1 = some nm ∧
        (⟨d.1, none, nm, d.2⟩ : Feature) ∈ feats := by
  have hfalsy : ∀ k, getVal (tilesByState [] dataset) k = none ∨
      getVal (tilesByState [] dataset) k = some none :=
    getVal_foldl_addDataset_falsy dataset [] (fun k => Or.inl rfl)
  have hkeys : keysOf (tilesByState [] dataset) = dataset.map Prod.fst := by
    rw [keysOf_tilesByState]
    simp only [List.map_nil, List.nil_append]
    exact firstKeys_of_nodup _ hnodup
  constructor
  · intro g1 g2
    unfold toTopoJson
    apply mapM_congr_except
    intro x hx
    have hval : (getVal (tilesByState [] dataset) x).getD none = none := by
      rcases hfalsy x with h | h <;> simp [h]
    rw [hval]
    rfl
  · intro g
    have hall : ∀ x ∈ jsKeys (tilesByState [] dataset),
        ∃ y, buildFeature g geoHash dataset (maxTileY []) x
          ((getVal (tilesByState [] dataset) x).getD none) = .ok y := by
      intro x hx
      have hxds : x ∈ dataset.map Prod.fst := by
        have := ((perm_jsKeys _).mem_iff).mp hx
        rwa [hkeys] at this
      obtain ⟨d, hd, hdx⟩ := List.mem_map.mp hxds
      obtain ⟨nm, hnm⟩ := hgeo d hd
      have hval : (getVal (tilesByState [] dataset) x).getD none = none := by
        rcases hfalsy x with h | h <;> simp [h]
      subst hdx
      have hfind : dataset.find? (fun e => e.1 = d.1) = some d :=
        find?_fst_eq_of_nodup dataset hnodup d hd
      exact ⟨⟨d.1, none, nm, d.2⟩,
        by simp [buildFeature, buildGeometry, hnm, hfind, hval]⟩
    obtain ⟨feats, hfe, hlen, hmem⟩ := mapM_ok_of_forall _ _ hall
    refine ⟨feats, hfe, ?_, ?_⟩
    · rw [hlen, (perm_jsKeys _).length_eq, hkeys, List.length_map]
    · intro d hd
      obtain ⟨nm, hnm⟩ := hgeo d hd
      have hdx : d.1 ∈ jsKeys (tilesByState [] dataset) := by
        rw [(perm_jsKeys _).mem_iff, hkeys]
        exact List.mem_map_of_mem Prod.fst hd
      obtain ⟨y, hy, hfy⟩ := hmem d.1 hdx
      have hval : (getVal (tilesByState [] dataset) d.1).getD none = none := by
        rcases hfalsy d.1 with h | h <;> simp [h]
      have hfind : dataset.find? (fun e => e.1 = d.1) = some d :=
        find?_fst_eq_of_nodup dataset hnodup d hd
      have hcomp : buildFeature g geoHash dataset (maxTileY []) d.1
          ((getVal (tilesByState [] dataset) d.1).getD none) =
            .ok ⟨d.1, none, nm, d.2⟩ := by
        simp [buildFeature, buildGeometry, hnm, hfind, hval]
      rw [hcomp] at hfy
      exact ⟨nm, hnm, (Except.ok.inj hfy) ▸ hy⟩

/-- Witness for C9: empty tiles with dataset `[("Y", 1)]`. -/
theorem toTopoJson_empty_tiles_witness :
    toTopoJson gridW (fun _ => some "Yreg") [] [("Y", 1)] =
      toTopoJson gridW2 (fun _ => some "Yreg") [] [("Y", 1)] ∧
    ∃ feats, toTopoJson gridW (fun _ => some "Yreg") [] [("Y", 1)] =
        .ok feats ∧
      feats.length = 1 ∧
      (⟨"Y", none, "Yreg", 1⟩ : Feature) ∈ feats := by
  obtain ⟨hind, hok⟩ := toTopoJson_empty_tiles [("Y", 1)]
    (fun _ => some "Yreg") (by decide) (fun d hd => ⟨"Yreg", rfl⟩)
  refine ⟨hind gridW gridW2, ?_⟩
  obtain ⟨feats, h1, h2, h3⟩ := hok gridW
  obtain ⟨nm, hnm, hmem⟩ := h3 ("Y", 1) (List.mem_singleton.mpr rfl)
  have : nm = "Yreg" := (Option.some.inj hnm).symm
  subst this
  exact ⟨feats, h1, h2, hmem⟩

end Tilegrams
